import Mathlib

/-!
Shallow embedding of `src/index.js` of reformstudios/semver-action.

The program fetches the latest tag, pages through the commits between that
tag and a branch, classifies each commit message with the conventional-commits
parser, tallies major/minor/patch bump counts, resolves one bump decision by
priority, and exports `next` / `nextStrict` output variables.

External collaborators (the GitHub API, the conventional-commits parser and
the npm `semver` package) are modelled as parameters or, for `semver.inc`,
as an explicit Lean function restricted to plain `[v]MAJOR.MINOR.PATCH`
versions.
-/

/-- Footer note of a parsed conventional commit (`cAst.notes` entries have a
`title` and a `text`). -/
structure Note where
  title : String
  text : String
deriving DecidableEq, Repr

/-- Result of `cc.toConventionalChangelogFormat (cc.parser message)`: the
fields of the parsed commit that `main` consumes (`cAst.type`, `cAst.notes`). -/
structure CAst where
  type : String
  notes : List Note
deriving DecidableEq, Repr

/-- Commit record as consumed by `main`: `commit.sha` and
`commit.commit.message` (flattened to one message field). -/
structure Commit where
  sha : String
  message : String
deriving DecidableEq, Repr

/-- Embedding of the `bumpTypes` constant of `src/index.js` lines 7-11. -/
structure BumpTypes where
  major : List String
  minor : List String
  patch : List String

def bumpTypes : BumpTypes :=
  { major := []
    minor := ["feat", "feature"]
    patch := ["fix", "bugfix", "perf", "refactor", "test", "tests"] }

/-- Tally of the three mutable counters `majorChanges`, `minorChanges`,
`patchChanges` of `main`. -/
structure BumpTally where
  major : Nat
  minor : Nat
  patch : Nat
deriving DecidableEq, Repr

/-- Bump severities that `main` can assign to the `bump` variable. -/
inductive Bump where
  | major
  | minor
  | patch
deriving DecidableEq, Repr

/-- Embedding of the `for (const note of cAst.notes)` loop of lines 96-101:
every note titled exactly `BREAKING CHANGE` increments the major counter. -/
def applyNotes (t : BumpTally) (notes : List Note) : BumpTally :=
  notes.foldl
    (fun t note =>
      if note.title = "BREAKING CHANGE" then { t with major := t.major + 1 } else t)
    t

/-- Embedding of one iteration of the commit loop of lines 81-105. The
external conventional-commits parser is abstracted as
`parse : String → Option CAst`; `none` models the thrown parse error, which
the `catch` block swallows leaving the tally unchanged. -/
def classifyCommit (parse : String → Option CAst) (t : BumpTally) (commit : Commit) :
    BumpTally :=
  match parse commit.message with
  | none => t
  | some cAst =>
    let t1 :=
      if bumpTypes.major.contains cAst.type then { t with major := t.major + 1 }
      else if bumpTypes.minor.contains cAst.type then { t with minor := t.minor + 1 }
      else if bumpTypes.patch.contains cAst.type then { t with patch := t.patch + 1 }
      else t
    applyNotes t1 cAst.notes

/-- Fold of `classifyCommit` over the whole commit list, starting from the
zero-initialised counters of lines 78-80. -/
def scanCommits (parse : String → Option CAst) (commits : List Commit) : BumpTally :=
  commits.foldl (classifyCommit parse) ⟨0, 0, 0⟩

/-- Embedding of the decision chain of lines 107-116: `bump` stays `null`
(`none`) exactly when all three counters are zero. -/
def resolveBump (t : BumpTally) : Option Bump :=
  if t.major > 0 then some Bump.major
  else if t.minor > 0 then some Bump.minor
  else if t.patch > 0 then some Bump.patch
  else none

/-- Response of one `compareCommitsWithBasehead` page: the `data.commits`
array and the `data.total_commits` field read by lines 64-65. -/
structure PageResp where
  commits : List Commit
  total_commits : Nat

/-- Embedding of the do/while pagination loop of lines 50-70. `fetch p` is
the response for 1-based page `p` (`per_page` is 100). The loop body runs as
in the source: increment `curPage`, fetch, read `total_commits`, append the
page, and continue while `(curPage - 1) * 100 + rangeCommits.length <
totalCommits`. A fuel argument bounds the recursion; `none` means the JS
loop would still be running after `fuel` iterations. -/
def fetchLoopAux (fetch : Nat → PageResp) :
    Nat → Nat → List Commit → Option (List Commit × Nat)
  | 0, _, _ => none
  | fuel + 1, curPage0, acc =>
    let curPage := curPage0 + 1
    let resp := fetch curPage
    let totalCommits := resp.total_commits
    let acc1 := acc ++ resp.commits
    if (curPage - 1) * 100 + resp.commits.length < totalCommits then
      fetchLoopAux fetch fuel curPage acc1
    else
      some (acc1, curPage)

/-- Pagination loop as entered by `main`: `curPage = 0` and `commits = []`. -/
def fetchLoop (fetch : Nat → PageResp) (fuel : Nat) : Option (List Commit × Nat) :=
  fetchLoopAux fetch fuel 0 []

/-- Cumulative number of commits contained in pages `1..k` of the fetcher. -/
def cumCommits (fetch : Nat → PageResp) (k : Nat) : Nat :=
  ((List.range' 1 k).map (fun j => (fetch j).commits.length)).sum

/-- Split of a character list at every dot, keeping empty segments. -/
def splitOnDot : List Char → List (List Char)
  | [] => [[]]
  | c :: rest =>
    if c = '.' then [] :: splitOnDot rest
    else
      match splitOnDot rest with
      | [] => [[c]]
      | h :: t => (c :: h) :: t

/-- Model of the external npm `semver` package: parse of one numeric version
component (digits only, no leading zero except `0` itself). -/
def parseNumPart (cs : List Char) : Option Nat :=
  if cs ≠ [] ∧ cs.all Char.isDigit ∧ (cs = ['0'] ∨ cs.head? ≠ some '0') then
    some (cs.foldl (fun acc c => acc * 10 + (c.toNat - 48)) 0)
  else none

/-- Model of the external npm `semver` package: parsing of a plain semantic
version `MAJOR.MINOR.PATCH` with at most one optional leading `v` (the only
prefix the package's version regular expression accepts); any other string,
in particular a tag name with an arbitrary non-numeric prefix, fails to
parse. Pre-release and build suffixes are outside this model. -/
def parseSemver (s : String) : Option (Nat × Nat × Nat) :=
  let cs :=
    match s.data with
    | 'v' :: rest => rest
    | other => other
  match splitOnDot cs with
  | [a, b, c] =>
    match parseNumPart a, parseNumPart b, parseNumPart c with
    | some ma, some mi, some pa => some (ma, mi, pa)
    | _, _, _ => none
  | _ => none

/-- Model of `semver.inc(version, bump)` of the external npm `semver`
package, for plain versions: `null` (`none`) when the version does not
parse; otherwise major resets minor and patch to 0, minor resets patch to 0,
patch increments only the patch field. The returned string is bare numeric,
with no prefix. -/
def semverInc (version : String) (bump : Bump) : Option String :=
  match parseSemver version with
  | none => none
  | some (ma, mi, pa) =>
    match bump with
    | Bump.major => some (toString (ma + 1) ++ ".0.0")
    | Bump.minor => some (toString ma ++ "." ++ toString (mi + 1) ++ ".0")
    | Bump.patch => some (toString ma ++ "." ++ toString mi ++ "." ++ toString (pa + 1))

/-- JavaScript template-literal rendering of the possibly-`null` value
`next` inside the backtick string of line 125: `null` prints as `null`. -/
def jsTemplate : Option String → String
  | some s => s
  | none => "null"

/-- Latest tag as read from the GraphQL response at line 40: only its `name`
is consumed downstream. -/
structure Tag where
  name : String

/-- Observable outcome of one run of `main`: the argument of the single
`core.setFailed` call, if any, and the list of `core.exportVariable` calls
(name, value; `none` models a `null` value argument). -/
structure RunOutcome where
  failedMsg : Option String
  exports : List (String × Option String)
deriving DecidableEq, Repr

/-- Embedding of `main` (lines 13-127) downstream of the two network reads.
`latestTag` is the GraphQL result, `fetch` the commit-page fetcher, `parse`
the conventional-commits parser and `inc` the version incrementer; `fuel`
bounds the pagination loop, with `none` meaning the loop never exits. -/
def mainModel (latestTag : Option Tag) (fetch : Nat → PageResp)
    (parse : String → Option CAst) (inc : String → Bump → Option String)
    (fuel : Nat) : Option RunOutcome :=
  match latestTag with
  | none =>
    some { failedMsg := some "Couldn\x27t find the latest tag. Make sure you have at least one tag created first."
           exports := [] }
  | some latestTag =>
    match fetchLoop fetch fuel with
    | none => none
    | some (commits, _) =>
      if commits.length < 1 then
        some { failedMsg := some "Couldn\x27t find any commits between HEAD and latest tag."
               exports := [] }
      else
        match resolveBump (scanCommits parse commits) with
        | none =>
          some { failedMsg := some "No commit resulted in a version bump since last release!"
                 exports := [] }
        | some bump =>
          let next := inc latestTag.name bump
          some { failedMsg := none
                 exports := [("next", some ("v" ++ jsTemplate next)), ("nextStrict", next)] }

/-- Number of footer notes titled exactly `BREAKING CHANGE`. -/
def breakingCount (notes : List Note) : Nat :=
  notes.countP (fun note => note.title == "BREAKING CHANGE")

/-- Contribution of a single commit to the tally: the effect of one loop
iteration on zero counters. -/
def commitDelta (parse : String → Option CAst) (c : Commit) : BumpTally :=
  classifyCommit parse ⟨0, 0, 0⟩ c

theorem applyNotes_eq (notes : List Note) (t : BumpTally) :
    applyNotes t notes = ⟨t.major + breakingCount notes, t.minor, t.patch⟩ := by
  induction notes generalizing t with
  | nil => cases t; simp [applyNotes, breakingCount]
  | cons note rest ih =>
    have hstep : applyNotes t (note :: rest) =
        applyNotes
          (if note.title = "BREAKING CHANGE" then { t with major := t.major + 1 } else t)
          rest := rfl
    rw [hstep]
    by_cases h : note.title = "BREAKING CHANGE"
    · rw [if_pos h, ih]
      simp [breakingCount, List.countP_cons, h]
      omega
    · rw [if_neg h, ih]
      simp [breakingCount, List.countP_cons, h]

theorem classifyCommit_eq (parse : String → Option CAst) (t : BumpTally) (c : Commit) :
    classifyCommit parse t c =
      ⟨t.major + (commitDelta parse c).major,
       t.minor + (commitDelta parse c).minor,
       t.patch + (commitDelta parse c).patch⟩ := by
  cases hp : parse c.message with
  | none => cases t; simp [classifyCommit, commitDelta, hp]
  | some ast =>
    simp only [classifyCommit, commitDelta, hp, applyNotes_eq]
    split_ifs <;> simp <;> omega

theorem foldl_classify_eq (parse : String → Option CAst) (l : List Commit) (t : BumpTally) :
    l.foldl (classifyCommit parse) t =
      ⟨t.major + (l.map (fun c => (commitDelta parse c).major)).sum,
       t.minor + (l.map (fun c => (commitDelta parse c).minor)).sum,
       t.patch + (l.map (fun c => (commitDelta parse c).patch)).sum⟩ := by
  induction l generalizing t with
  | nil => cases t; simp
  | cons c rest ih =>
    rw [List.foldl_cons, ih, classifyCommit_eq]
    simp
    refine ⟨by omega, by omega, by omega⟩

theorem scanCommits_eq (parse : String → Option CAst) (l : List Commit) :
    scanCommits parse l =
      ⟨(l.map (fun c => (commitDelta parse c).major)).sum,
       (l.map (fun c => (commitDelta parse c).minor)).sum,
       (l.map (fun c => (commitDelta parse c).patch)).sum⟩ := by
  rw [scanCommits, foldl_classify_eq]
  simp

theorem resolveBump_eq_none_iff (t : BumpTally) :
    resolveBump t = none ↔ t = ⟨0, 0, 0⟩ := by
  cases t with
  | mk a b c =>
    simp only [resolveBump]
    split_ifs <;> simp_all <;> omega

theorem commitDelta_none (parse : String → Option CAst) (c : Commit)
    (hp : parse c.message = none) : commitDelta parse c = ⟨0, 0, 0⟩ := by
  simp [commitDelta, classifyCommit, hp]

theorem commitDelta_major (parse : String → Option CAst) (c : Commit) (ast : CAst)
    (hp : parse c.message = some ast) :
    (commitDelta parse c).major =
      (if bumpTypes.major.contains ast.type then 1 else 0) + breakingCount ast.notes := by
  simp only [commitDelta, classifyCommit, hp, applyNotes_eq]
  split_ifs <;> simp

theorem commitDelta_minor (parse : String → Option CAst) (c : Commit) (ast : CAst)
    (hp : parse c.message = some ast) :
    (commitDelta parse c).minor =
      if bumpTypes.major.contains ast.type then 0
      else if bumpTypes.minor.contains ast.type then 1
      else 0 := by
  simp only [commitDelta, classifyCommit, hp, applyNotes_eq]
  split_ifs <;> simp

theorem commitDelta_patch (parse : String → Option CAst) (c : Commit) (ast : CAst)
    (hp : parse c.message = some ast) :
    (commitDelta parse c).patch =
      if bumpTypes.major.contains ast.type then 0
      else if bumpTypes.minor.contains ast.type then 0
      else if bumpTypes.patch.contains ast.type then 1
      else 0 := by
  simp only [commitDelta, classifyCommit, hp, applyNotes_eq]
  split_ifs <;> simp

theorem major_contains_false (s : String) : bumpTypes.major.contains s = false := rfl

/-- Parser stub used by the concrete witnesses: a fixed table of messages
standing for the external conventional-commits parser on those inputs. -/
def wParse : String → Option CAst := fun msg =>
  if msg = "feat: a" then some ⟨"feat", []⟩
  else if msg = "fix: b" then some ⟨"fix", []⟩
  else if msg = "fix: c" then some ⟨"fix", [⟨"BREAKING CHANGE", "drops support"⟩]⟩
  else if msg = "chore: d" then some ⟨"chore", []⟩
  else none

/-- C1: the final bump decision is resolved by strict priority over the
three tallies (major, then minor, then patch, else none), and whenever some
commit yields a major-classified type or a `BREAKING CHANGE` note the
decision is major regardless of the other commits. -/
theorem C1_decision_priority (parse : String → Option CAst) (commits : List Commit) :
    (∀ t : BumpTally,
      resolveBump t =
        if t.major > 0 then some Bump.major
        else if t.minor > 0 then some Bump.minor
        else if t.patch > 0 then some Bump.patch
        else none) ∧
    ((∃ c ∈ commits, ∃ ast, parse c.message = some ast ∧
        (bumpTypes.major.contains ast.type = true ∨
          ∃ note ∈ ast.notes, note.title = "BREAKING CHANGE")) →
      resolveBump (scanCommits parse commits) = some Bump.major) := by
  refine ⟨fun t => rfl, ?_⟩
  rintro ⟨c, hc, ast, hp, hmaj⟩
  have hdelta : 0 < (commitDelta parse c).major := by
    rw [commitDelta_major parse c ast hp]
    rcases hmaj with hmaj | ⟨note, hnote, htitle⟩
    · simp [bumpTypes] at hmaj
    · have : 0 < breakingCount ast.notes := by
        rw [breakingCount, List.countP_pos_iff]
        exact ⟨note, hnote, by simp [htitle]⟩
      omega
  have hmem : (commitDelta parse c).major ∈
      commits.map (fun c => (commitDelta parse c).major) :=
    List.mem_map_of_mem _ hc
  have hsum : 0 < ((commits.map (fun c => (commitDelta parse c).major)).sum) :=
    lt_of_lt_of_le hdelta (List.single_le_sum (fun x _ => Nat.zero_le x) _ hmem)
  rw [scanCommits_eq]
  simp [resolveBump, hsum]

/-- Witness for C1 at a concrete commit list containing a
`BREAKING CHANGE` note. -/
theorem C1_witness :
    (∃ c ∈ ([⟨"1", "feat: a"⟩, ⟨"3", "fix: c"⟩] : List Commit), ∃ ast,
        wParse c.message = some ast ∧
        (bumpTypes.major.contains ast.type = true ∨
          ∃ note ∈ ast.notes, note.title = "BREAKING CHANGE")) ∧
    resolveBump (scanCommits wParse [⟨"1", "feat: a"⟩, ⟨"3", "fix: c"⟩]) = some Bump.major := by
  have hyp : ∃ c ∈ ([⟨"1", "feat: a"⟩, ⟨"3", "fix: c"⟩] : List Commit), ∃ ast,
      wParse c.message = some ast ∧
      (bumpTypes.major.contains ast.type = true ∨
        ∃ note ∈ ast.notes, note.title = "BREAKING CHANGE") := by
    refine ⟨⟨"3", "fix: c"⟩, by simp, ⟨"fix", [⟨"BREAKING CHANGE", "drops support"⟩]⟩, by decide, ?_⟩
    exact Or.inr ⟨⟨"BREAKING CHANGE", "drops support"⟩, by simp, rfl⟩
  exact ⟨hyp, (C1_decision_priority wParse _).2 hyp⟩

theorem sum_map_eq_zero_iff (f : Commit → Nat) (l : List Commit) :
    (l.map f).sum = 0 ↔ ∀ c ∈ l, f c = 0 := by
  induction l with
  | nil => simp
  | cons c rest ih =>
    simp only [List.map_cons, List.sum_cons, List.mem_cons]
    constructor
    · intro h
      have hc : f c = 0 := by omega
      have hrest := ih.1 (by omega)
      rintro x (rfl | hx)
      · exact hc
      · exact hrest x hx
    · intro h
      have hc := h c (Or.inl rfl)
      have hrest := ih.2 (fun x hx => h x (Or.inr hx))
      omega

/-- C9: the classifier is a pure fold with no cross-commit ordering
dependency: permuting the commit list changes neither the tally nor the
final decision. -/
theorem C9_perm_invariant (parse : String → Option CAst) (l l' : List Commit)
    (h : l.Perm l') :
    scanCommits parse l = scanCommits parse l' ∧
    resolveBump (scanCommits parse l) = resolveBump (scanCommits parse l') := by
  have hs : scanCommits parse l = scanCommits parse l' := by
    rw [scanCommits_eq, scanCommits_eq,
      (h.map (fun c => (commitDelta parse c).major)).sum_eq,
      (h.map (fun c => (commitDelta parse c).minor)).sum_eq,
      (h.map (fun c => (commitDelta parse c).patch)).sum_eq]
  exact ⟨hs, by rw [hs]⟩

/-- Witness for C9 at a concrete two-commit list and its swap. -/
theorem C9_witness :
    (([⟨"1", "feat: a"⟩, ⟨"2", "fix: b"⟩] : List Commit).Perm
        [⟨"2", "fix: b"⟩, ⟨"1", "feat: a"⟩]) ∧
    scanCommits wParse [⟨"1", "feat: a"⟩, ⟨"2", "fix: b"⟩] =
      scanCommits wParse [⟨"2", "fix: b"⟩, ⟨"1", "feat: a"⟩] ∧
    resolveBump (scanCommits wParse [⟨"1", "feat: a"⟩, ⟨"2", "fix: b"⟩]) =
      resolveBump (scanCommits wParse [⟨"2", "fix: b"⟩, ⟨"1", "feat: a"⟩]) := by
  have hp : ([⟨"1", "feat: a"⟩, ⟨"2", "fix: b"⟩] : List Commit).Perm
      [⟨"2", "fix: b"⟩, ⟨"1", "feat: a"⟩] := List.Perm.swap _ _ _
  exact ⟨hp, (C9_perm_invariant wParse _ _ hp).1, (C9_perm_invariant wParse _ _ hp).2⟩

/-- C3: the decision is `none` iff every commit fails to parse or has a type
outside the minor and patch lists and no commit carries a `BREAKING CHANGE`
note; equivalently iff all three counters are zero; and in that case (with a
nonempty commit range) the run fails with the no-bump message. -/
theorem C3_none_characterisation (parse : String → Option CAst) (commits : List Commit) :
    (resolveBump (scanCommits parse commits) = none ↔
      ((∀ c ∈ commits, parse c.message = none ∨
          ∃ ast, parse c.message = some ast ∧
            bumpTypes.minor.contains ast.type = false ∧
            bumpTypes.patch.contains ast.type = false) ∧
        (∀ c ∈ commits, ∀ ast, parse c.message = some ast →
          ∀ note ∈ ast.notes, note.title ≠ "BREAKING CHANGE"))) ∧
    (resolveBump (scanCommits parse commits) = none ↔
      scanCommits parse commits = ⟨0, 0, 0⟩) ∧
    (∀ (tag : Tag) (fetch : Nat → PageResp) (inc : String → Bump → Option String)
        (fuel n : Nat),
      fetchLoop fetch fuel = some (commits, n) → commits ≠ [] →
      resolveBump (scanCommits parse commits) = none →
      mainModel (some tag) fetch parse inc fuel =
        some ⟨some "No commit resulted in a version bump since last release!", []⟩) := by
  refine ⟨?_, resolveBump_eq_none_iff _, ?_⟩
  · rw [resolveBump_eq_none_iff, scanCommits_eq, BumpTally.mk.injEq,
      sum_map_eq_zero_iff, sum_map_eq_zero_iff, sum_map_eq_zero_iff]
    constructor
    · rintro ⟨hM, hm, hp⟩
      constructor
      · intro c hc
        cases hpc : parse c.message with
        | none => exact Or.inl rfl
        | some ast =>
          have hminor := hm c hc
          rw [commitDelta_minor parse c ast hpc, major_contains_false] at hminor
          simp only [Bool.false_eq_true, if_false] at hminor
          have hmf : bumpTypes.minor.contains ast.type = false := by
            by_contra hx
            simp only [Bool.not_eq_false] at hx
            rw [hx] at hminor
            simp at hminor
          have hpatch := hp c hc
          rw [commitDelta_patch parse c ast hpc, major_contains_false, hmf] at hpatch
          simp only [Bool.false_eq_true, if_false] at hpatch
          have hpf : bumpTypes.patch.contains ast.type = false := by
            by_contra hx
            simp only [Bool.not_eq_false] at hx
            rw [hx] at hpatch
            simp at hpatch
          exact Or.inr ⟨ast, rfl, hmf, hpf⟩
      · intro c hc ast hpc note hnote htitle
        have hmajor := hM c hc
        rw [commitDelta_major parse c ast hpc, major_contains_false] at hmajor
        simp only [Bool.false_eq_true, if_false, Nat.zero_add] at hmajor
        have : 0 < breakingCount ast.notes := by
          rw [breakingCount, List.countP_pos_iff]
          exact ⟨note, hnote, by simp [htitle]⟩
        omega
    · rintro ⟨h1, h2⟩
      have hbc : ∀ c ∈ commits, ∀ ast, parse c.message = some ast →
          breakingCount ast.notes = 0 := by
        intro c hc ast hpc
        rw [breakingCount, List.countP_eq_zero]
        intro note hnote
        simpa using h2 c hc ast hpc note hnote
      refine ⟨?_, ?_, ?_⟩ <;> intro c hc
      · cases hpc : parse c.message with
        | none => simp [commitDelta_none parse c hpc]
        | some ast =>
          rw [commitDelta_major parse c ast hpc, major_contains_false,
            hbc c hc ast hpc]
          simp
      · cases hpc : parse c.message with
        | none => simp [commitDelta_none parse c hpc]
        | some ast =>
          rcases h1 c hc with hnone | ⟨ast1, hpc1, hmf, hpf⟩
          · rw [hpc] at hnone; exact absurd hnone (by simp)
          · rw [hpc] at hpc1
            injection hpc1 with h
            subst h
            rw [commitDelta_minor parse c ast hpc, major_contains_false, hmf]
            simp
      · cases hpc : parse c.message with
        | none => simp [commitDelta_none parse c hpc]
        | some ast =>
          rcases h1 c hc with hnone | ⟨ast1, hpc1, hmf, hpf⟩
          · rw [hpc] at hnone; exact absurd hnone (by simp)
          · rw [hpc] at hpc1
            injection hpc1 with h
            subst h
            rw [commitDelta_patch parse c ast hpc, major_contains_false, hmf, hpf]
            simp
  · intro tag fetch inc fuel n hloop hne hnone
    have hlen : ¬ commits.length < 1 := by
      cases commits with
      | nil => exact absurd rfl hne
      | cons a l => simp
    simp only [mainModel, hloop, hlen, if_false, hnone]

theorem patch_not_minor (s : String) (h : bumpTypes.patch.contains s = true) :
    bumpTypes.minor.contains s = false := by
  have hm : s ∈ bumpTypes.patch := by simpa using h
  simp only [bumpTypes, List.mem_cons, List.not_mem_nil, or_false] at hm
  rcases hm with h | h | h | h | h | h <;> subst h <;> decide

/-- C5: for a successfully parsed commit, every footer note titled exactly
`BREAKING CHANGE` adds one to the major counter independently of the type
classification, while a minor-, respectively patch-, classified type still
adds one to its own counter. -/
theorem C5_breaking_notes (parse : String → Option CAst) (t : BumpTally)
    (c : Commit) (ast : CAst) (hp : parse c.message = some ast) :
    (classifyCommit parse t c).major = t.major + breakingCount ast.notes ∧
    (bumpTypes.minor.contains ast.type = true →
      (classifyCommit parse t c).minor = t.minor + 1) ∧
    (bumpTypes.patch.contains ast.type = true →
      (classifyCommit parse t c).patch = t.patch + 1) := by
  refine ⟨?_, ?_, ?_⟩
  · rw [classifyCommit_eq, commitDelta_major parse c ast hp, major_contains_false]
    simp
  · intro hm
    rw [classifyCommit_eq, commitDelta_minor parse c ast hp, major_contains_false, hm]
    simp
  · intro hpa
    rw [classifyCommit_eq, commitDelta_patch parse c ast hp, major_contains_false,
      patch_not_minor ast.type hpa, hpa]
    simp

/-- Witness for C5 at a `fix`-typed commit carrying a `BREAKING CHANGE`
note: both the patch counter and the major counter grow. -/
theorem C5_witness :
    wParse (Commit.mk "3" "fix: c").message =
      some ⟨"fix", [⟨"BREAKING CHANGE", "drops support"⟩]⟩ ∧
    (classifyCommit wParse ⟨0, 0, 0⟩ ⟨"3", "fix: c"⟩).major =
      0 + breakingCount [⟨"BREAKING CHANGE", "drops support"⟩] ∧
    (classifyCommit wParse ⟨0, 0, 0⟩ ⟨"3", "fix: c"⟩).patch = 0 + 1 := by
  have hp : wParse (Commit.mk "3" "fix: c").message =
      some ⟨"fix", [⟨"BREAKING CHANGE", "drops support"⟩]⟩ := by decide
  exact ⟨hp, (C5_breaking_notes wParse ⟨0, 0, 0⟩ _ _ hp).1,
    (C5_breaking_notes wParse ⟨0, 0, 0⟩ _ _ hp).2.2 (by decide)⟩

/-- C6: the configured lists are exactly feat/feature for minor and
fix/bugfix/perf/refactor/test/tests for patch, with an empty major list; the
type lookup of a parsed commit with an unlisted type increments nothing: the
only remaining effect is the independent `BREAKING CHANGE` note scan, so
with no such note the tally is left fully unchanged. -/
theorem C6_type_mapping (parse : String → Option CAst) (t : BumpTally)
    (c : Commit) (ast : CAst) (hp : parse c.message = some ast) :
    bumpTypes.major = [] ∧
    bumpTypes.minor = ["feat", "feature"] ∧
    bumpTypes.patch = ["fix", "bugfix", "perf", "refactor", "test", "tests"] ∧
    (bumpTypes.minor.contains ast.type = true →
      (classifyCommit parse t c).minor = t.minor + 1 ∧
      (classifyCommit parse t c).patch = t.patch) ∧
    (bumpTypes.patch.contains ast.type = true →
      (classifyCommit parse t c).patch = t.patch + 1 ∧
      (classifyCommit parse t c).minor = t.minor) ∧
    (bumpTypes.minor.contains ast.type = false →
      bumpTypes.patch.contains ast.type = false →
      classifyCommit parse t c = { t with major := t.major + breakingCount ast.notes } ∧
      (breakingCount ast.notes = 0 → classifyCommit parse t c = t)) := by
  refine ⟨rfl, rfl, rfl, ?_, ?_, ?_⟩
  · intro hm
    simp only [classifyCommit_eq, commitDelta_minor parse c ast hp,
      commitDelta_patch parse c ast hp, major_contains_false, hm]
    simp
  · intro hpa
    simp only [classifyCommit_eq, commitDelta_minor parse c ast hp,
      commitDelta_patch parse c ast hp, major_contains_false,
      patch_not_minor ast.type hpa, hpa]
    simp
  · intro hm hpa
    have hmain : classifyCommit parse t c =
        { t with major := t.major + breakingCount ast.notes } := by
      rw [classifyCommit_eq, commitDelta_major parse c ast hp,
        commitDelta_minor parse c ast hp, commitDelta_patch parse c ast hp,
        major_contains_false, hm, hpa]
      cases t
      simp
    refine ⟨hmain, fun hz => ?_⟩
    rw [hmain, hz]
    cases t
    simp

/-- Witness for C6 at the unlisted type `chore` with no breaking note: the
tally is unchanged. -/
theorem C6_witness :
    wParse (Commit.mk "4" "chore: d").message = some ⟨"chore", []⟩ ∧
    bumpTypes.minor.contains "chore" = false ∧
    bumpTypes.patch.contains "chore" = false ∧
    classifyCommit wParse ⟨1, 2, 3⟩ ⟨"4", "chore: d"⟩ = ⟨1, 2, 3⟩ := by
  have hp : wParse (Commit.mk "4" "chore: d").message = some ⟨"chore", []⟩ := by decide
  refine ⟨hp, by decide, by decide, ?_⟩
  exact ((C6_type_mapping wParse ⟨1, 2, 3⟩ _ _ hp).2.2.2.2.2 (by decide) (by decide)).2
    (by decide)

/-- C7: a commit whose message fails conventional-commit parsing leaves all
three counters unchanged, and removing it from anywhere in the list does not
change the scan of the remaining commits (the parse error never escapes the
loop iteration). -/
theorem C7_parse_failure (parse : String → Option CAst) (t : BumpTally)
    (c : Commit) (hp : parse c.message = none) :
    classifyCommit parse t c = t ∧
    (∀ pre post : List Commit,
      scanCommits parse (pre ++ c :: post) = scanCommits parse (pre ++ post)) := by
  have hstep : ∀ t1 : BumpTally, classifyCommit parse t1 c = t1 := by
    intro t1
    simp [classifyCommit, hp]
  refine ⟨hstep t, ?_⟩
  intro pre post
  rw [scanCommits, scanCommits, List.foldl_append, List.foldl_append,
    List.foldl_cons, hstep]

/-- Witness for C7 at a malformed message in the middle of a list. -/
theorem C7_witness :
    wParse (Commit.mk "9" "garbage").message = none ∧
    classifyCommit wParse ⟨1, 2, 3⟩ ⟨"9", "garbage"⟩ = ⟨1, 2, 3⟩ ∧
    scanCommits wParse [⟨"1", "feat: a"⟩, ⟨"9", "garbage"⟩, ⟨"2", "fix: b"⟩] =
      scanCommits wParse [⟨"1", "feat: a"⟩, ⟨"2", "fix: b"⟩] := by
  have hp : wParse (Commit.mk "9" "garbage").message = none := by decide
  exact ⟨hp, (C7_parse_failure wParse ⟨1, 2, 3⟩ _ hp).1,
    (C7_parse_failure wParse ⟨1, 2, 3⟩ _ hp).2 [⟨"1", "feat: a"⟩] [⟨"2", "fix: b"⟩]⟩

theorem fetchLoopAux_spec (fetch : Nat → PageResp) :
    ∀ (fuel p : Nat) (acc res : List Commit) (n : Nat),
    fetchLoopAux fetch fuel p acc = some (res, n) →
    p + 1 ≤ n ∧
    ¬ ((n - 1) * 100 + (fetch n).commits.length < (fetch n).total_commits) ∧
    (∀ k, p + 1 ≤ k → k < n →
      (k - 1) * 100 + (fetch k).commits.length < (fetch k).total_commits) ∧
    res = acc ++ ((List.range' (p + 1) (n - p)).map (fun k => (fetch k).commits)).flatten := by
  intro fuel
  induction fuel with
  | zero =>
    intro p acc res n h
    exact absurd h (by simp [fetchLoopAux])
  | succ fuel ih =>
    intro p acc res n h
    simp only [fetchLoopAux] at h
    by_cases hcond :
        (p + 1 - 1) * 100 + (fetch (p + 1)).commits.length < (fetch (p + 1)).total_commits
    · rw [if_pos hcond] at h
      obtain ⟨h1, h2, h3, h4⟩ := ih (p + 1) (acc ++ (fetch (p + 1)).commits) res n h
      refine ⟨by omega, h2, ?_, ?_⟩
      · intro k hk1 hk2
        rcases Nat.eq_or_lt_of_le hk1 with heq | hlt
        · rw [← heq]
          simpa using hcond
        · exact h3 k hlt hk2
      · have hnp : n - p = (n - (p + 1)) + 1 := by omega
        rw [h4, hnp, List.range'_succ, List.map_cons, List.flatten_cons,
          List.append_assoc]
    · rw [if_neg hcond] at h
      simp only [Option.some.injEq, Prod.mk.injEq] at h
      obtain ⟨hres, hn⟩ := h
      subst hn
      refine ⟨le_refl _, by simpa using hcond, by omega, ?_⟩
      rw [← hres]
      simp

theorem sum_const_100 (f : Nat → Nat) :
    ∀ (m s : Nat), (∀ j, s ≤ j → j < s + m → f j = 100) →
    ((List.range' s m).map f).sum = m * 100 := by
  intro m
  induction m with
  | zero => intro s _; simp
  | succ m ih =>
    intro s hf
    rw [List.range'_succ, List.map_cons, List.sum_cons,
      hf s (le_refl _) (by omega), ih (s + 1) (fun j hj1 hj2 => hf j (by omega) (by omega))]
    omega

theorem cumCommits_succ (fetch : Nat → PageResp) (k : Nat) :
    cumCommits fetch (k + 1) = cumCommits fetch k + (fetch (k + 1)).commits.length := by
  rw [cumCommits, cumCommits, List.range'_concat, List.map_append, List.sum_append]
  have h1k : 1 + 1 * k = k + 1 := by omega
  rw [h1k]
  simp

/-- C2 (amended): when the pagination loop returns after page `n`, the
stopping test that held is `(n-1)*100 + (size of page n) ≥ (total reported
by page n)`, that test failed for every earlier page, the accumulated list
is the concatenation of pages `1..n`, and whenever every earlier page holds
exactly 100 commits this stopping rule coincides with the claim's
cumulative-count rule. -/
theorem C2_pagination_window (fetch : Nat → PageResp) (fuel : Nat)
    (commits : List Commit) (n : Nat)
    (h : fetchLoop fetch fuel = some (commits, n)) :
    1 ≤ n ∧
    (fetch n).total_commits ≤ (n - 1) * 100 + (fetch n).commits.length ∧
    (∀ k, 1 ≤ k → k < n →
      (k - 1) * 100 + (fetch k).commits.length < (fetch k).total_commits) ∧
    commits = ((List.range' 1 n).map (fun k => (fetch k).commits)).flatten ∧
    commits.length = cumCommits fetch n ∧
    ((∀ k, 1 ≤ k → k < n → (fetch k).commits.length = 100) →
      ((fetch n).total_commits ≤ cumCommits fetch n ∧
       (∀ k, 1 ≤ k → k < n → cumCommits fetch k < (fetch k).total_commits))) := by
  obtain ⟨h1, h2, h3, h4⟩ := fetchLoopAux_spec fetch fuel 0 [] commits n h
  have hres : commits = ((List.range' 1 n).map (fun k => (fetch k).commits)).flatten := by
    simpa using h4
  have hlen : commits.length = cumCommits fetch n := by
    rw [hres, List.length_flatten, List.map_map, cumCommits]
    rfl
  refine ⟨h1, by omega, fun k hk1 hk2 => h3 k hk1 hk2, hres, hlen, ?_⟩
  intro hfull
  have hcum : ∀ k, k < n → cumCommits fetch k = k * 100 := by
    intro k hk
    rw [cumCommits, sum_const_100 (fun j => (fetch j).commits.length) k 1
      (fun j hj1 hj2 => hfull j hj1 (by omega))]
  constructor
  · have hn1 : n = (n - 1) + 1 := by omega
    have : cumCommits fetch n = (n - 1) * 100 + (fetch n).commits.length := by
      rw [hn1, cumCommits_succ, hcum (n - 1) (by omega), ← hn1]
    omega
  · intro k hk1 hk2
    have := h3 k hk1 hk2
    have hk0 : k = (k - 1) + 1 := by omega
    have : cumCommits fetch k = (k - 1) * 100 + (fetch k).commits.length := by
      rw [hk0, cumCommits_succ, hcum (k - 1) (by omega), ← hk0]
    omega

/-- Commit value used by the concrete pagination scenarios. -/
def cCommit : Commit := ⟨"sha", "msg"⟩

/-- Fetcher whose every page holds 50 commits while reporting a total of
120: page sizes below 100 that are not the final remainder. -/
def cFetch : Nat → PageResp := fun _ => ⟨List.replicate 50 cCommit, 120⟩

/-- Counterexample to C2 as stated: against `cFetch` the loop stops after
page 2 with only 100 commits accumulated although the reported total is
120, so it does not run until the cumulative count reaches the total. -/
theorem C2_counterexample :
    fetchLoop cFetch 10 = some (List.replicate 100 cCommit, 2) ∧
    (List.replicate 100 cCommit).length < (cFetch 2).total_commits := by
  constructor
  · decide
  · decide

/-- Fetcher with a full first page of 100 commits and a remainder page of
50, reporting a total of 150. -/
def wFetch : Nat → PageResp := fun p =>
  if p = 1 then ⟨List.replicate 100 cCommit, 150⟩ else ⟨List.replicate 50 cCommit, 150⟩

/-- Witness for the amended C2 on the full-page fetcher `wFetch`. -/
theorem C2_witness :
    fetchLoop wFetch 10 = some (List.replicate 150 cCommit, 2) ∧
    (wFetch 2).total_commits ≤ (2 - 1) * 100 + (wFetch 2).commits.length ∧
    List.replicate 150 cCommit =
      ((List.range' 1 2).map (fun k => (wFetch k).commits)).flatten := by
  have h : fetchLoop wFetch 10 = some (List.replicate 150 cCommit, 2) := by decide
  exact ⟨h, (C2_pagination_window wFetch 10 _ 2 h).2.1,
    (C2_pagination_window wFetch 10 _ 2 h).2.2.2.1⟩

/-- C8: each of the three fatal conditions (no tag, no commits in range, no
counter positive) halts the run with its single descriptive message and an
empty export list, and any failed run has an empty export list (outputs are
set only on the success path). -/
theorem C8_fatal_paths (fetch : Nat → PageResp) (parse : String → Option CAst)
    (inc : String → Bump → Option String) (fuel : Nat) :
    (mainModel none fetch parse inc fuel =
      some ⟨some "Couldn\x27t find the latest tag. Make sure you have at least one tag created first.", []⟩) ∧
    (∀ (tag : Tag) (n : Nat), fetchLoop fetch fuel = some ([], n) →
      mainModel (some tag) fetch parse inc fuel =
        some ⟨some "Couldn\x27t find any commits between HEAD and latest tag.", []⟩) ∧
    (∀ (tag : Tag) (commits : List Commit) (n : Nat),
      fetchLoop fetch fuel = some (commits, n) → commits ≠ [] →
      resolveBump (scanCommits parse commits) = none →
      mainModel (some tag) fetch parse inc fuel =
        some ⟨some "No commit resulted in a version bump since last release!", []⟩) ∧
    (∀ (latestTag : Option Tag) (r : RunOutcome),
      mainModel latestTag fetch parse inc fuel = some r →
      r.failedMsg.isSome = true → r.exports = []) := by
  refine ⟨rfl, ?_, ?_, ?_⟩
  · intro tag n hloop
    simp [mainModel, hloop]
  · intro tag commits n hloop hne hnone
    have hlen : ¬ commits.length < 1 := by
      cases commits with
      | nil => exact absurd rfl hne
      | cons a l => simp
    simp only [mainModel, hloop, hlen, if_false, hnone]
  · intro latestTag r h hsome
    cases latestTag with
    | none =>
      simp only [mainModel, Option.some.injEq] at h
      rw [← h]
    | some tag =>
      cases hl : fetchLoop fetch fuel with
      | none => simp [mainModel, hl] at h
      | some p =>
        obtain ⟨commits, n⟩ := p
        by_cases hlen : commits.length < 1
        · simp only [mainModel, hl, if_pos hlen, Option.some.injEq] at h
          rw [← h]
        · cases hr : resolveBump (scanCommits parse commits) with
          | none =>
            simp only [mainModel, hl, if_neg hlen, hr, Option.some.injEq] at h
            rw [← h]
          | some bump =>
            simp only [mainModel, hl, if_neg hlen, hr, Option.some.injEq] at h
            rw [← h] at hsome
            simp at hsome

/-- Fetcher returning an empty first page with total 0: the no-commits
scenario. -/
def eFetch : Nat → PageResp := fun _ => ⟨[], 0⟩

/-- Witness for C8 on the empty commit range. -/
theorem C8_witness :
    fetchLoop eFetch 5 = some ([], 1) ∧
    mainModel (some ⟨"v1.2.3"⟩) eFetch wParse semverInc 5 =
      some ⟨some "Couldn\x27t find any commits between HEAD and latest tag.", []⟩ := by
  have h : fetchLoop eFetch 5 = some ([], 1) := by decide
  exact ⟨h, (C8_fatal_paths eFetch wParse semverInc 5).2.1 ⟨"v1.2.3"⟩ 1 h⟩

/-- Leading run of non-digit characters of a tag name: the "leading
non-numeric prefix" the claim speaks about. -/
def tagPrefix (s : String) : String := ⟨s.data.takeWhile (fun ch => !ch.isDigit)⟩

/-- Single-page fetcher holding one `feat` commit. -/
def wFetch1 : Nat → PageResp := fun _ => ⟨[⟨"s1", "feat: a"⟩], 1⟩

/-- C4 (amended): the run never strips the tag's own prefix and reattaches
it; the incrementer is applied to the raw tag name, and on the success path
the exports are exactly `next = "v" ++ (string form of the incrementer
result)` and `nextStrict = (incrementer result)` — `next` carries the
literal prefix `v` whatever prefix the tag had. -/
theorem C4_next_literal_v (latestTag : Option Tag) (fetch : Nat → PageResp)
    (parse : String → Option CAst) (inc : String → Bump → Option String)
    (fuel : Nat) (r : RunOutcome)
    (h : mainModel latestTag fetch parse inc fuel = some r)
    (hs : r.failedMsg = none) :
    ∃ (s : Option String) (tag : Tag) (bump : Bump),
      latestTag = some tag ∧ s = inc tag.name bump ∧
      r.exports = [("next", some ("v" ++ jsTemplate s)), ("nextStrict", s)] := by
  cases latestTag with
  | none =>
    simp only [mainModel, Option.some.injEq] at h
    rw [← h] at hs
    simp at hs
  | some tag =>
    cases hl : fetchLoop fetch fuel with
    | none => simp [mainModel, hl] at h
    | some p =>
      obtain ⟨commits, n⟩ := p
      by_cases hlen : commits.length < 1
      · simp only [mainModel, hl, if_pos hlen, Option.some.injEq] at h
        rw [← h] at hs
        simp at hs
      · cases hr : resolveBump (scanCommits parse commits) with
        | none =>
          simp only [mainModel, hl, if_neg hlen, hr, Option.some.injEq] at h
          rw [← h] at hs
          simp at hs
        | some bump =>
          simp only [mainModel, hl, if_neg hlen, hr, Option.some.injEq] at h
          exact ⟨inc tag.name bump, tag, bump, rfl, rfl, by rw [← h]⟩

/-- Witness for the amended C4: tag `v1.2.3`, one `feat` commit, outputs
`next = v1.3.0` and `nextStrict = 1.3.0`. -/
theorem C4_witness :
    mainModel (some ⟨"v1.2.3"⟩) wFetch1 wParse semverInc 5 =
      some ⟨none, [("next", some "v1.3.0"), ("nextStrict", some "1.3.0")]⟩ ∧
    ∃ (s : Option String) (tag : Tag) (bump : Bump),
      (some (Tag.mk "v1.2.3") : Option Tag) = some tag ∧ s = semverInc tag.name bump ∧
      (RunOutcome.mk none
          [("next", some "v1.3.0"), ("nextStrict", some "1.3.0")]).exports =
        [("next", some ("v" ++ jsTemplate s)), ("nextStrict", s)] := by
  have h : mainModel (some ⟨"v1.2.3"⟩) wFetch1 wParse semverInc 5 =
      some ⟨none, [("next", some "v1.3.0"), ("nextStrict", some "1.3.0")]⟩ := by decide
  exact ⟨h, C4_next_literal_v (some ⟨"v1.2.3"⟩) wFetch1 wParse semverInc 5 _ h rfl⟩

/-- Counterexample to C4 as stated: for the prefixless tag `1.2.3` with a
minor bump, `next` is `v1.3.0`, which is not the original tag's (empty)
prefix followed by `nextStrict = 1.3.0`. -/
theorem C4_counterexample :
    mainModel (some ⟨"1.2.3"⟩) wFetch1 wParse semverInc 5 =
      some ⟨none, [("next", some "v1.3.0"), ("nextStrict", some "1.3.0")]⟩ ∧
    tagPrefix "1.2.3" = "" ∧
    "v1.3.0" ≠ tagPrefix "1.2.3" ++ "1.3.0" := by
  refine ⟨by decide, by decide, by decide⟩

/-- C10: when a tag exists, some commit yields a bump, and the tag name is
not parseable by the version incrementer (which returns `none`), the run
still succeeds, exporting `next = "vnull"` and `nextStrict = null`. -/
theorem C10_unvalidated_tag (tag : Tag) (fetch : Nat → PageResp)
    (parse : String → Option CAst) (fuel : Nat) (commits : List Commit)
    (n : Nat) (bump : Bump)
    (hloop : fetchLoop fetch fuel = some (commits, n)) (hne : commits ≠ [])
    (hbump : resolveBump (scanCommits parse commits) = some bump)
    (hinc : semverInc tag.name bump = none) :
    mainModel (some tag) fetch parse semverInc fuel =
      some ⟨none, [("next", some "vnull"), ("nextStrict", none)]⟩ := by
  have hlen : ¬ commits.length < 1 := by
    cases commits with
    | nil => exact absurd rfl hne
    | cons a l => simp
  simp only [mainModel, hloop, if_neg hlen, hbump, hinc]
  rfl

/-- Witness for C10 at the unparseable tag `release-abc`. -/
theorem C10_witness :
    fetchLoop wFetch1 5 = some ([⟨"s1", "feat: a"⟩], 1) ∧
    resolveBump (scanCommits wParse [⟨"s1", "feat: a"⟩]) = some Bump.minor ∧
    semverInc "release-abc" Bump.minor = none ∧
    mainModel (some ⟨"release-abc"⟩) wFetch1 wParse semverInc 5 =
      some ⟨none, [("next", some "vnull"), ("nextStrict", none)]⟩ := by
  refine ⟨by decide, by decide, by decide, ?_⟩
  exact C10_unvalidated_tag ⟨"release-abc"⟩ wFetch1 wParse 5 [⟨"s1", "feat: a"⟩] 1
    Bump.minor (by decide) (by decide) (by decide) (by decide)

/-- Single-page fetcher holding one unlisted-type commit. -/
def cdFetch : Nat → PageResp := fun _ => ⟨[⟨"4", "chore: d"⟩], 1⟩

/-- Witness for C3 at a single `chore` commit: decision `none`, zero tally,
and the failing run with the no-bump message. -/
theorem C3_witness :
    resolveBump (scanCommits wParse [⟨"4", "chore: d"⟩]) = none ∧
    scanCommits wParse [⟨"4", "chore: d"⟩] = ⟨0, 0, 0⟩ ∧
    mainModel (some ⟨"v1.2.3"⟩) cdFetch wParse semverInc 5 =
      some ⟨some "No commit resulted in a version bump since last release!", []⟩ := by
  refine ⟨by decide, by decide, ?_⟩
  exact (C3_none_characterisation wParse [⟨"4", "chore: d"⟩]).2.2 ⟨"v1.2.3"⟩ cdFetch
    semverInc 5 1 (by decide) (by decide) (by decide)
